import Mathlib

/-!
Shallow embedding of `app.py` (AutoPelpa): a flight arrivals/departures
pipeline for one carrier ("AR") at one airport.  Python strings are modelled
as Lean `String` (character sequences); Python `int` timestamps as `Int`;
the Python `set` of processed registrations as a `List String` used only
through membership; Python dicts with fixed keys as Lean structures.
-/

/-- One processed flight, as built by `process_flight_data` (src/app.py lines
103-110): a dict with keys tipo, numero_vuelo, hora, aeropuerto, matricula,
timestamp. -/
structure Flight where
  tipo : String
  numero_vuelo : String
  hora : String
  aeropuerto : String
  matricula : String
  timestamp : Int
  deriving DecidableEq, Repr

/-- One combined output row, as built by `combine_arrivals_departures`
(src/app.py lines 134-152, 170-191, 198-206): a dict with keys llegada,
salida, hora_llegada, hora_salida, origen, destino, matricula. -/
structure CombinedRecord where
  llegada : String
  salida : String
  hora_llegada : String
  hora_salida : String
  origen : String
  destino : String
  matricula : String
  deriving DecidableEq, Repr

/-- One raw provider flight object, reduced to the fields `process_flight_data`
reads (src/app.py lines 60-96).  Python `dict.get` defaults (missing fields)
are the empty string / 0. -/
structure RawFlight where
  airline_iata : String
  number_default : String
  number_number : String
  registration : String
  scheduled_arrival : Int
  scheduled_departure : Int
  estimated_arrival : Int
  estimated_departure : Int
  origin_iata : String
  destination_iata : String
  deriving DecidableEq, Repr

/-- Python `s.startswith("AR")` on the character sequence of `s`
(src/app.py line 72). -/
def startsWithAR (s : String) : Bool :=
  "AR".data.isPrefixOf s.data

/-- Python `s[2:]` on the character sequence of `s` (src/app.py line 73). -/
def dropTwo (s : String) : String :=
  ⟨s.data.drop 2⟩

/-- Lines 72-73 of src/app.py: remove one leading "AR" from the raw flight
number if present. -/
def stripAR (s : String) : String :=
  if startsWithAR s then dropTwo s else s

/-- The whole flight-number normalization of `process_flight_data`: strip one
leading "AR" (lines 72-73) and re-add the carrier prefix via the f-string
`f"AR{flight_number}"` (line 105). -/
def normalizeFlightNumber (s : String) : String :=
  "AR" ++ stripAR s

/-- Lines 80-84 of src/app.py: the effective time is the estimated time when
truthy (nonzero), else the scheduled time, each picked for the direction
`flight_type`. -/
def effective_time (flight : RawFlight) (flight_type : String) : Int :=
  let scheduled_time :=
    if flight_type = "arrivals" then flight.scheduled_arrival else flight.scheduled_departure
  let estimated_time :=
    if flight_type = "arrivals" then flight.estimated_arrival else flight.estimated_departure
  if estimated_time ≠ 0 then estimated_time else scheduled_time

/-- Lines 86-88 of src/app.py: the time-window test
`start_timestamp <= flight_time <= end_timestamp`. -/
def inWindow (start_timestamp end_timestamp flight_time : Int) : Bool :=
  decide (start_timestamp ≤ flight_time ∧ flight_time ≤ end_timestamp)

/-- Zero-padded two-digit decimal, as in strftime's %H / %M. -/
def pad2 (n : Nat) : String :=
  if n < 10 then "0" ++ toString n else toString n

/-- Lines 99-101 of src/app.py: format an epoch-second timestamp as local
"HH:MM" in ART (UTC-3). -/
def formatHM (t : Int) : String :=
  let sod : Nat := ((t - 10800) % 86400).toNat
  pad2 (sod / 3600) ++ ":" ++ pad2 (sod % 3600 / 60)

/-- Lines 57-112 of src/app.py, for one raw flight: `none` models `continue`
(wrong carrier, or outside the window); `some` is the dict appended to
`processed_data`. -/
def processFlight (flight : RawFlight) (flight_type : String)
    (start_timestamp end_timestamp : Int) : Option Flight :=
  if flight.airline_iata ≠ "AR" then none
  else
    let flight_number0 :=
      if flight.number_default ≠ "" then flight.number_default else flight.number_number
    let flight_number := stripAR flight_number0
    let flight_time := effective_time flight flight_type
    if ¬ (inWindow start_timestamp end_timestamp flight_time = true) then none
    else some {
      tipo := if flight_type = "arrivals" then "Llegada" else "Salida"
      numero_vuelo := "AR" ++ flight_number
      hora := if flight_time ≠ 0 then formatHM flight_time else ""
      aeropuerto := if flight_type = "arrivals" then flight.origin_iata else flight.destination_iata
      matricula := flight.registration
      timestamp := flight_time }

/-- Lines 51-118 of src/app.py over a whole list: skipped flights (`continue`)
are dropped, the rest are collected in order. -/
def process_flight_data (flights : List RawFlight) (flight_type : String)
    (start_timestamp end_timestamp : Int) : List Flight :=
  flights.filterMap (fun f => processFlight f flight_type start_timestamp end_timestamp)

/-- Line 128 of src/app.py: the fixed exception set, modelled as a list used
only through membership. -/
def exception_vuelos : List String :=
  ["AR1550", "AR1587", "AR1552", "AR1551", "AR1553"]

/-- Lines 183-191 of src/app.py (also 134-142): the arrival-only combined row
for a flight. -/
def arrivalOnlyRecord (f : Flight) : CombinedRecord :=
  { llegada := f.numero_vuelo, salida := "", hora_llegada := f.hora, hora_salida := ""
    origen := f.aeropuerto, destino := "", matricula := f.matricula }

/-- Lines 198-206 of src/app.py (also 144-152): the departure-only combined
row for a flight. -/
def departureOnlyRecord (f : Flight) : CombinedRecord :=
  { llegada := "", salida := f.numero_vuelo, hora_llegada := "", hora_salida := f.hora
    origen := "", destino := f.aeropuerto, matricula := f.matricula }

/-- Lines 170-178 of src/app.py: the paired combined row for an arrival and
its matching departure. -/
def pairedRecord (a d : Flight) : CombinedRecord :=
  { llegada := a.numero_vuelo, salida := d.numero_vuelo, hora_llegada := a.hora
    hora_salida := d.hora, origen := a.aeropuerto, destino := d.aeropuerto
    matricula := a.matricula }

/-- Lines 133-152 of src/app.py: the standalone row emitted for an exception
flight, arrival-shaped or departure-shaped by its `tipo`. -/
def exceptionRecord (f : Flight) : CombinedRecord :=
  if f.tipo = "Llegada" then arrivalOnlyRecord f else departureOnlyRecord f

/-- Lines 130-153 of src/app.py: the exception pass over `arrivals +
departures`.  Returns the emitted rows and the registrations added to
`processed_matriculas`. -/
def exceptionPass : List Flight → List CombinedRecord × List String
  | [] => ([], [])
  | f :: rest =>
    if f.numero_vuelo ∈ exception_vuelos then
      (exceptionRecord f :: (exceptionPass rest).1, f.matricula :: (exceptionPass rest).2)
    else exceptionPass rest

/-- Lines 163-165 of src/app.py: the condition on a candidate departure. -/
def matchesArrival (arrival : Flight) (processed : List String) (departure : Flight) : Bool :=
  departure.matricula == arrival.matricula &&
  !(processed.contains departure.matricula) &&
  !(exception_vuelos.contains departure.numero_vuelo)

/-- Lines 160-167 of src/app.py: scan `departures` in order and take the first
match for `arrival`, if any. -/
def findMatching (arrival : Flight) (processed : List String)
    (departures : List Flight) : Option Flight :=
  departures.find? (matchesArrival arrival processed)

/-- Lines 156-192 of src/app.py: the matching pass over the arrivals, carrying
the evolving `processed_matriculas`. -/
def matchingPass (departures : List Flight) :
    List Flight → List String → List CombinedRecord × List String
  | [], processed => ([], processed)
  | arrival :: rest, processed =>
    if arrival.matricula ∈ processed ∨ arrival.numero_vuelo ∈ exception_vuelos then
      matchingPass departures rest processed
    else
      match findMatching arrival processed departures with
      | some d =>
        (pairedRecord arrival d ::
            (matchingPass departures rest (arrival.matricula :: d.matricula :: processed)).1,
          (matchingPass departures rest (arrival.matricula :: d.matricula :: processed)).2)
      | none =>
        (arrivalOnlyRecord arrival ::
            (matchingPass departures rest (arrival.matricula :: processed)).1,
          (matchingPass departures rest (arrival.matricula :: processed)).2)

/-- Lines 194-207 of src/app.py: the leftover-departures pass. -/
def leftoverPass : List Flight → List String → List CombinedRecord × List String
  | [], processed => ([], processed)
  | d :: rest, processed =>
    if d.matricula ∉ processed ∧ d.numero_vuelo ∉ exception_vuelos then
      (departureOnlyRecord d :: (leftoverPass rest (d.matricula :: processed)).1,
        (leftoverPass rest (d.matricula :: processed)).2)
    else leftoverPass rest processed

/-- Lines 120-209 of src/app.py: the full reconciler, appending the rows of
the three passes in order. -/
def combine_arrivals_departures (arrivals departures : List Flight) : List CombinedRecord :=
  let ep := exceptionPass (arrivals ++ departures)
  let mp := matchingPass departures arrivals ep.2
  let lp := leftoverPass departures mp.2
  ep.1 ++ mp.1 ++ lp.1

/-- Lines 301-303 of src/app.py: the sort key of a combined row — the arrival
time when nonempty, else the departure time. -/
def sort_key (r : CombinedRecord) : String :=
  if r.hora_llegada ≠ "" then r.hora_llegada else r.hora_salida

/-- Lines 301-306 of src/app.py: sort the combined rows ascending by
`sort_key` (Python `list.sort` with a key; the key is attached, used and
deleted, so the rows themselves are unchanged). -/
def sortCombined (l : List CombinedRecord) : List CombinedRecord :=
  l.mergeSort (fun a b => sort_key a ≤ sort_key b)

/-! ### Flight-number normalization facts -/

lemma data_AR_append (s : String) : ("AR" ++ s).data = 'A' :: 'R' :: s.data := by
  simp [String.data_append]

lemma startsWithAR_AR_append (s : String) : startsWithAR ("AR" ++ s) = true := by
  unfold startsWithAR
  rw [data_AR_append]
  show List.isPrefixOf ['A', 'R'] ('A' :: 'R' :: s.data) = true
  simp [List.isPrefixOf_cons₂]

lemma dropTwo_AR_append (s : String) : dropTwo ("AR" ++ s) = s := by
  unfold dropTwo
  rw [data_AR_append]
  rfl

lemma stripAR_AR_append (s : String) : stripAR ("AR" ++ s) = s := by
  unfold stripAR
  rw [startsWithAR_AR_append]
  simp [dropTwo_AR_append]

lemma processFlight_numero {flight : RawFlight} {flight_type : String} {s e : Int} {rec : Flight}
    (h : processFlight flight flight_type s e = some rec) :
    rec.numero_vuelo = normalizeFlightNumber
      (if flight.number_default ≠ "" then flight.number_default else flight.number_number) := by
  by_cases hA : flight.airline_iata = "AR"
  · by_cases hw : inWindow s e (effective_time flight flight_type) = true
    · simp only [processFlight, hA, ne_eq, not_true_eq_false, if_false, hw, not_false_eq_true,
        if_true, Option.some.injEq] at h
      subst h
      rfl
    · simp [processFlight, hA, hw] at h
  · simp [processFlight, hA] at h

/-- C5 (corrected): the raw flight number `"ARAR1234"` is accepted and stored
as `"ARAR1234"`, not `"AR1234"`: the code strips only one leading `"AR"`
before re-adding the carrier prefix, so a doubly-prefixed raw number keeps a
duplicated prefix. -/
theorem c5_counterexample :
    (processFlight
      { airline_iata := "AR", number_default := "ARAR1234", number_number := ""
        registration := "LV-ABC", scheduled_arrival := 50, scheduled_departure := 0
        estimated_arrival := 0, estimated_departure := 0
        origin_iata := "EZE", destination_iata := "" } "arrivals" 0 100).map Flight.numero_vuelo
      = some "ARAR1234" ∧ ("ARAR1234" : String) ≠ "AR1234" := by
  decide

/-- C5 (amended): every record accepted by the extractor stores
`"AR" ++ (raw number with one leading "AR" stripped)`.  When the raw number
carries at most one `"AR"` prefix (after stripping one copy the rest does not
start with `"AR"`), the stored number has no duplicated prefix; a
doubly-prefixed raw number such as `"ARAR1234"` keeps its inner duplicate. -/
theorem c5_amended (flight : RawFlight) (flight_type : String) (s e : Int) (rec : Flight)
    (h : processFlight flight flight_type s e = some rec) :
    rec.numero_vuelo = normalizeFlightNumber
      (if flight.number_default ≠ "" then flight.number_default else flight.number_number) ∧
    (startsWithAR (stripAR
        (if flight.number_default ≠ "" then flight.number_default else flight.number_number))
          = false →
      startsWithAR (dropTwo rec.numero_vuelo) = false) := by
  have h1 := processFlight_numero h
  refine ⟨h1, fun h2 => ?_⟩
  rw [h1]
  unfold normalizeFlightNumber
  rw [dropTwo_AR_append]
  exact h2

theorem c5_amended_witness :
    (startsWithAR (stripAR "1234") = false) ∧
    startsWithAR (dropTwo (Flight.numero_vuelo
      { tipo := "Llegada", numero_vuelo := "AR1234", hora := "21:00", aeropuerto := "EZE"
        matricula := "LV-ABC", timestamp := 50 })) = false :=
  ⟨by decide,
    (c5_amended
      { airline_iata := "AR", number_default := "1234", number_number := ""
        registration := "LV-ABC", scheduled_arrival := 50, scheduled_departure := 0
        estimated_arrival := 0, estimated_departure := 0
        origin_iata := "EZE", destination_iata := "" } "arrivals" 0 100
      { tipo := "Llegada", numero_vuelo := "AR1234", hora := "21:00", aeropuerto := "EZE"
        matricula := "LV-ABC", timestamp := 50 }
      (by decide)).2 (by decide)⟩

/-- C6 (confirmed): flight-number normalization (strip one leading "AR", then
re-add the carrier code) is idempotent; normalizing `"AR1234"` yields
`"AR1234"`, not `"ARAR1234"` and not `"1234"`. -/
theorem c6_normalize_idempotent :
    (∀ s : String, normalizeFlightNumber (normalizeFlightNumber s) = normalizeFlightNumber s) ∧
    normalizeFlightNumber "AR1234" = "AR1234" ∧
    normalizeFlightNumber "AR1234" ≠ "ARAR1234" ∧
    normalizeFlightNumber "AR1234" ≠ "1234" := by
  refine ⟨fun s => ?_, by decide, by decide, by decide⟩
  show normalizeFlightNumber ("AR" ++ stripAR s) = "AR" ++ stripAR s
  unfold normalizeFlightNumber
  rw [stripAR_AR_append]

/-- C7 (confirmed): the window test keeps a flight iff
`start ≤ effective_time ≤ end`, both bounds inclusive: the exact bounds are
kept, one second outside either bound is dropped, and for a tracked-carrier
flight the extractor returns a record iff the window test passes on its
effective time. -/
theorem c7_window_inclusive (s e t : Int) (hse : s ≤ e) :
    (inWindow s e t = true ↔ s ≤ t ∧ t ≤ e) ∧
    inWindow s e s = true ∧ inWindow s e e = true ∧
    inWindow s e (s - 1) = false ∧ inWindow s e (e + 1) = false ∧
    ∀ (flight : RawFlight) (flight_type : String), flight.airline_iata = "AR" →
      ((processFlight flight flight_type s e).isSome = true ↔
        inWindow s e (effective_time flight flight_type) = true) := by
  refine ⟨by simp [inWindow], ?_, ?_, ?_, ?_, ?_⟩
  · simp only [inWindow, decide_eq_true_eq]
    exact ⟨le_refl s, hse⟩
  · simp only [inWindow, decide_eq_true_eq]
    exact ⟨hse, le_refl e⟩
  · simp only [inWindow, decide_eq_false_iff_not]
    omega
  · simp only [inWindow, decide_eq_false_iff_not]
    omega
  · intro flight flight_type hAR
    by_cases hw : inWindow s e (effective_time flight flight_type) = true <;>
      simp [processFlight, hAR, hw]

theorem c7_witness :
    (0 : Int) ≤ 100 ∧ inWindow 0 100 0 = true ∧ inWindow 0 100 100 = true ∧
    inWindow 0 100 (0 - 1) = false ∧ inWindow 0 100 (100 + 1) = false :=
  ⟨by decide, (c7_window_inclusive 0 100 50 (by decide)).2.1,
    (c7_window_inclusive 0 100 50 (by decide)).2.2.1,
    (c7_window_inclusive 0 100 50 (by decide)).2.2.2.1,
    (c7_window_inclusive 0 100 50 (by decide)).2.2.2.2.1⟩

/-- C8 (confirmed): the rows handed to the presenter are exactly the combined
rows (the temporary sort key is attached, used and deleted, so the output is a
permutation of the input records, which carry no key field), in non-decreasing
lexical order of the sort key (arrival time when nonempty, else departure
time). -/
theorem c8_output_sorted (l : List CombinedRecord) :
    (sortCombined l).Pairwise (fun a b => sort_key a ≤ sort_key b) ∧
    (sortCombined l).Perm l := by
  constructor
  · have h : (sortCombined l).Pairwise
        (fun a b => decide (sort_key a ≤ sort_key b) = true) := by
      apply List.sorted_mergeSort
      · intro a b c h1 h2
        simp only [decide_eq_true_eq] at h1 h2 ⊢
        exact le_trans h1 h2
      · intro a b
        simp only [Bool.or_eq_true, decide_eq_true_eq]
        exact le_total _ _
    exact h.imp (fun hab => of_decide_eq_true hab)
  · exact List.mergeSort_perm l _

/-! ### Reconciler facts -/

lemma matchesArrival_iff {arrival departure : Flight} {processed : List String} :
    matchesArrival arrival processed departure = true ↔
      departure.matricula = arrival.matricula ∧ departure.matricula ∉ processed ∧
      departure.numero_vuelo ∉ exception_vuelos := by
  simp [matchesArrival, List.contains, List.elem_iff, and_assoc]

lemma exceptionRecord_matricula (f : Flight) :
    (exceptionRecord f).matricula = f.matricula := by
  unfold exceptionRecord
  split <;> rfl

lemma exceptionRecord_standalone (f : Flight) :
    (exceptionRecord f).llegada = "" ∨ (exceptionRecord f).salida = "" := by
  unfold exceptionRecord
  split
  · exact Or.inr rfl
  · exact Or.inl rfl

lemma exceptionRecord_number (f : Flight) :
    (exceptionRecord f).llegada = f.numero_vuelo ∨ (exceptionRecord f).salida = f.numero_vuelo := by
  unfold exceptionRecord
  split
  · exact Or.inl rfl
  · exact Or.inr rfl

lemma mem_exceptionPass_fst {fs : List Flight} {r : CombinedRecord} :
    r ∈ (exceptionPass fs).1 ↔
      ∃ f ∈ fs, f.numero_vuelo ∈ exception_vuelos ∧ r = exceptionRecord f := by
  induction fs with
  | nil => simp [exceptionPass]
  | cons f rest ih =>
    by_cases hf : f.numero_vuelo ∈ exception_vuelos <;>
      simp [exceptionPass, hf, ih]

lemma mem_exceptionPass_snd {fs : List Flight} {m : String} :
    m ∈ (exceptionPass fs).2 ↔
      ∃ f ∈ fs, f.numero_vuelo ∈ exception_vuelos ∧ m = f.matricula := by
  induction fs with
  | nil => simp [exceptionPass]
  | cons f rest ih =>
    by_cases hf : f.numero_vuelo ∈ exception_vuelos <;>
      simp [exceptionPass, hf, ih]

lemma matchingPass_mono {ds : List Flight} {x : String} :
    ∀ (as : List Flight) (p : List String), x ∈ p → x ∈ (matchingPass ds as p).2 := by
  intro as
  induction as with
  | nil =>
    intro p hp
    simpa [matchingPass] using hp
  | cons a rest ih =>
    intro p hp
    simp only [matchingPass]
    split
    · exact ih p hp
    · split
      · exact ih _ (by simp [hp])
      · exact ih _ (by simp [hp])

lemma matchingPass_fst_not_mem {ds : List Flight} :
    ∀ (as : List Flight) (p : List String) (r : CombinedRecord),
      r ∈ (matchingPass ds as p).1 → r.matricula ∉ p := by
  intro as
  induction as with
  | nil =>
    intro p r hr
    simp [matchingPass] at hr
  | cons a rest ih =>
    intro p r hr
    simp only [matchingPass] at hr
    split at hr
    · exact ih p r hr
    · next hguard =>
      split at hr
      · next d heq =>
        rcases List.mem_cons.mp hr with h | h
        · subst h
          exact fun hc => hguard (Or.inl hc)
        · intro hc
          exact ih _ r h (by simp [hc])
      · next heq =>
        rcases List.mem_cons.mp hr with h | h
        · subst h
          exact fun hc => hguard (Or.inl hc)
        · intro hc
          exact ih _ r h (by simp [hc])

lemma matchingPass_fst_mem_processed {ds : List Flight} :
    ∀ (as : List Flight) (p : List String) (r : CombinedRecord),
      r ∈ (matchingPass ds as p).1 → r.matricula ∈ (matchingPass ds as p).2 := by
  intro as
  induction as with
  | nil =>
    intro p r hr
    simp [matchingPass] at hr
  | cons a rest ih =>
    intro p r hr
    simp only [matchingPass] at hr ⊢
    split at hr
    · next hguard =>
      simp only [if_pos hguard]
      exact ih p r hr
    · next hguard =>
      simp only [if_neg hguard]
      split at hr
      · next d heq =>
        simp only [heq]
        rcases List.mem_cons.mp hr with h | h
        · subst h
          exact matchingPass_mono _ _ (by simp [pairedRecord])
        · exact ih _ r h
      · next heq =>
        simp only [heq]
        rcases List.mem_cons.mp hr with h | h
        · subst h
          exact matchingPass_mono _ _ (by simp [arrivalOnlyRecord])
        · exact ih _ r h

lemma matchingPass_fst_shape {ds : List Flight} :
    ∀ (as : List Flight) (p : List String) (r : CombinedRecord),
      r ∈ (matchingPass ds as p).1 →
      ∃ a q, a ∈ as ∧ p ⊆ q ∧ a.matricula ∉ q ∧ a.numero_vuelo ∉ exception_vuelos ∧
        r.matricula = a.matricula ∧
        ((∃ d, findMatching a q ds = some d ∧ r = pairedRecord a d) ∨
          (findMatching a q ds = none ∧ r = arrivalOnlyRecord a)) := by
  intro as
  induction as with
  | nil =>
    intro p r hr
    simp [matchingPass] at hr
  | cons a rest ih =>
    intro p r hr
    simp only [matchingPass] at hr
    split at hr
    · next hguard =>
      obtain ⟨a', q, ha', hq, hnot, hexc, hmat, hrest⟩ := ih p r hr
      exact ⟨a', q, List.mem_cons_of_mem _ ha', hq, hnot, hexc, hmat, hrest⟩
    · next hguard =>
      push_neg at hguard
      split at hr
      · next d heq =>
        rcases List.mem_cons.mp hr with h | h
        · subst h
          exact ⟨a, p, List.mem_cons_self _ _, List.Subset.refl p, hguard.1, hguard.2, rfl,
            Or.inl ⟨d, heq, rfl⟩⟩
        · obtain ⟨a', q, ha', hq, hnot, hexc, hmat, hrest⟩ := ih _ r h
          refine ⟨a', q, List.mem_cons_of_mem _ ha', fun x hx => hq (by simp [hx]), hnot, hexc,
            hmat, hrest⟩
      · next heq =>
        rcases List.mem_cons.mp hr with h | h
        · subst h
          exact ⟨a, p, List.mem_cons_self _ _, List.Subset.refl p, hguard.1, hguard.2, rfl,
            Or.inr ⟨heq, rfl⟩⟩
        · obtain ⟨a', q, ha', hq, hnot, hexc, hmat, hrest⟩ := ih _ r h
          refine ⟨a', q, List.mem_cons_of_mem _ ha', fun x hx => hq (by simp [hx]), hnot, hexc,
            hmat, hrest⟩

lemma matchingPass_pairwise {ds : List Flight} :
    ∀ (as : List Flight) (p : List String),
      ((matchingPass ds as p).1).Pairwise (fun r s => r.matricula ≠ s.matricula) := by
  intro as
  induction as with
  | nil =>
    intro p
    simp [matchingPass]
  | cons a rest ih =>
    intro p
    simp only [matchingPass]
    split
    · exact ih p
    · split
      · next d heq =>
        refine List.pairwise_cons.mpr ⟨fun s hs hse => ?_, ih _⟩
        have := matchingPass_fst_not_mem _ _ s hs
        exact this (by simp [← hse, pairedRecord])
      · next heq =>
        refine List.pairwise_cons.mpr ⟨fun s hs hse => ?_, ih _⟩
        have := matchingPass_fst_not_mem _ _ s hs
        exact this (by simp [← hse, arrivalOnlyRecord])

lemma leftoverPass_mono {x : String} :
    ∀ (ds : List Flight) (p : List String), x ∈ p → x ∈ (leftoverPass ds p).2 := by
  intro ds
  induction ds with
  | nil =>
    intro p hp
    simpa [leftoverPass] using hp
  | cons d rest ih =>
    intro p hp
    simp only [leftoverPass]
    split
    · exact ih _ (by simp [hp])
    · exact ih p hp

lemma leftoverPass_fst_shape :
    ∀ (ds : List Flight) (p : List String) (r : CombinedRecord),
      r ∈ (leftoverPass ds p).1 →
      ∃ d ∈ ds, d.numero_vuelo ∉ exception_vuelos ∧ r = departureOnlyRecord d ∧
        r.matricula ∉ p := by
  intro ds
  induction ds with
  | nil =>
    intro p r hr
    simp [leftoverPass] at hr
  | cons d rest ih =>
    intro p r hr
    simp only [leftoverPass] at hr
    split at hr
    · next hguard =>
      rcases List.mem_cons.mp hr with h | h
      · subst h
        exact ⟨d, List.mem_cons_self _ _, hguard.2, rfl, hguard.1⟩
      · obtain ⟨d', hd', hexc, hrec, hnot⟩ := ih _ r h
        refine ⟨d', List.mem_cons_of_mem _ hd', hexc, hrec, fun hc => hnot (by simp [hc])⟩
    · obtain ⟨d', hd', hexc, hrec, hnot⟩ := ih p r hr
      exact ⟨d', List.mem_cons_of_mem _ hd', hexc, hrec, hnot⟩

lemma leftoverPass_pairwise :
    ∀ (ds : List Flight) (p : List String),
      ((leftoverPass ds p).1).Pairwise (fun r s => r.matricula ≠ s.matricula) := by
  intro ds
  induction ds with
  | nil =>
    intro p
    simp [leftoverPass]
  | cons d rest ih =>
    intro p
    simp only [leftoverPass]
    split
    · refine List.pairwise_cons.mpr ⟨fun s hs hse => ?_, ih _⟩
      obtain ⟨d', hd', hexc, hrec, hnot⟩ := leftoverPass_fst_shape _ _ s hs
      exact hnot (by simp [← hse, departureOnlyRecord])
    · exact ih p

lemma findMatching_succeeds {arrival : Flight} {processed : List String}
    {departures : List Flight} (d0 : Flight) (hd0 : d0 ∈ departures)
    (hpred : matchesArrival arrival processed d0 = true) :
    ∃ d, findMatching arrival processed departures = some d := by
  have : (departures.find? (matchesArrival arrival processed)).isSome :=
    List.find?_isSome.mpr ⟨d0, hd0, hpred⟩
  exact Option.isSome_iff_exists.mp this

lemma matchingPass_pairs {ds : List Flight} {R : String} :
    ∀ (as : List Flight) (p : List String), R ∉ p →
      (∃ a ∈ as, a.matricula = R) →
      (∀ f ∈ as, f.matricula = R → f.numero_vuelo ∉ exception_vuelos) →
      (∃ d ∈ ds, d.matricula = R ∧ d.numero_vuelo ∉ exception_vuelos) →
      ∃ a d, a ∈ as ∧ d ∈ ds ∧ a.matricula = R ∧ d.matricula = R ∧
        pairedRecord a d ∈ (matchingPass ds as p).1 := by
  intro as
  induction as with
  | nil =>
    intro p hp hex hexc hdep
    simp at hex
  | cons a rest ih =>
    intro p hp hex hexc hdep
    obtain ⟨d0, hd0, hd0R, hd0exc⟩ := hdep
    by_cases haR : a.matricula = R
    · have hanum : a.numero_vuelo ∉ exception_vuelos :=
        hexc a (List.mem_cons_self _ _) haR
      have hguard : ¬(a.matricula ∈ p ∨ a.numero_vuelo ∈ exception_vuelos) := by
        rw [haR]
        simp [hp, hanum]
      have hpred : matchesArrival a p d0 = true :=
        matchesArrival_iff.mpr ⟨by rw [hd0R, haR], by rw [hd0R]; exact hp, hd0exc⟩
      obtain ⟨d, hfd⟩ := findMatching_succeeds d0 hd0 hpred
      have hdpred := List.find?_some hfd
      have hdmem := List.mem_of_find?_eq_some hfd
      obtain ⟨hdm, _, _⟩ := matchesArrival_iff.mp hdpred
      refine ⟨a, d, List.mem_cons_self _ _, hdmem, haR, by rw [hdm, haR], ?_⟩
      simp only [matchingPass, if_neg hguard, hfd]
      exact List.mem_cons_self _ _
    · have hex' : ∃ a' ∈ rest, a'.matricula = R := by
        obtain ⟨a', ha', ha'R⟩ := hex
        rcases List.mem_cons.mp ha' with h | h
        · exact absurd (h ▸ ha'R) haR
        · exact ⟨a', h, ha'R⟩
      have hexc' : ∀ f ∈ rest, f.matricula = R → f.numero_vuelo ∉ exception_vuelos :=
        fun f hf => hexc f (List.mem_cons_of_mem _ hf)
      have hdep' : ∃ d ∈ ds, d.matricula = R ∧ d.numero_vuelo ∉ exception_vuelos :=
        ⟨d0, hd0, hd0R, hd0exc⟩
      simp only [matchingPass]
      split
      · obtain ⟨a', d', ha', hd', h1, h2, h3⟩ := ih p hp hex' hexc' hdep'
        exact ⟨a', d', List.mem_cons_of_mem _ ha', hd', h1, h2, h3⟩
      · split
        · next d heq =>
          have hdpred := List.find?_some heq
          obtain ⟨hdm, _, _⟩ := matchesArrival_iff.mp hdpred
          have hp' : R ∉ a.matricula :: d.matricula :: p := by
            intro hc
            rcases List.mem_cons.mp hc with h | hc2
            · exact haR h.symm
            · rcases List.mem_cons.mp hc2 with h | h
              · rw [hdm] at h
                exact haR h.symm
              · exact hp h
          obtain ⟨a', d', ha', hd', h1, h2, h3⟩ := ih _ hp' hex' hexc' hdep'
          exact ⟨a', d', List.mem_cons_of_mem _ ha', hd', h1, h2,
            List.mem_cons_of_mem _ h3⟩
        · next heq =>
          have hp' : R ∉ a.matricula :: p := by
            intro hc
            rcases List.mem_cons.mp hc with h | h
            · exact haR h.symm
            · exact hp h
          obtain ⟨a', d', ha', hd', h1, h2, h3⟩ := ih _ hp' hex' hexc' hdep'
          exact ⟨a', d', List.mem_cons_of_mem _ ha', hd', h1, h2,
            List.mem_cons_of_mem _ h3⟩

lemma countP_le_one_of_pairwise {α : Type} {pb : α → Bool} :
    ∀ {l : List α}, l.Pairwise (fun a b => ¬(pb a = true ∧ pb b = true)) →
      l.countP pb ≤ 1 := by
  intro l
  induction l with
  | nil => simp
  | cons a t ih =>
    intro hp
    obtain ⟨ha, ht⟩ := List.pairwise_cons.mp hp
    by_cases h : pb a = true
    · have hzero : t.countP pb = 0 :=
        List.countP_eq_zero.mpr (fun b hb hb' => (ha b hb) ⟨h, hb'⟩)
      simp [List.countP_cons, h, hzero]
    · simp only [List.countP_cons, h, if_false]
      simpa using ih ht

lemma combine_eq (arrivals departures : List Flight) :
    combine_arrivals_departures arrivals departures =
      (exceptionPass (arrivals ++ departures)).1 ++
      (matchingPass departures arrivals (exceptionPass (arrivals ++ departures)).2).1 ++
      (leftoverPass departures
        (matchingPass departures arrivals (exceptionPass (arrivals ++ departures)).2).2).1 := rfl

/-- C1 (counterexample): with arrivals = [AR1550, reg XYZ, 10:00] (an exception
flight) and departures = [AR300, reg XYZ, 11:00], the reconciler emits ONE
record, not two: AR300 appears in no output row, contradicting the claimed
"two standalone rows". -/
theorem c1_counterexample :
    (combine_arrivals_departures
        [{ tipo := "Llegada", numero_vuelo := "AR1550", hora := "10:00", aeropuerto := "AEP"
           matricula := "XYZ", timestamp := 0 }]
        [{ tipo := "Salida", numero_vuelo := "AR300", hora := "11:00", aeropuerto := "AEP"
           matricula := "XYZ", timestamp := 0 }]).length = 1 ∧
    ∀ r ∈ combine_arrivals_departures
        [{ tipo := "Llegada", numero_vuelo := "AR1550", hora := "10:00", aeropuerto := "AEP"
           matricula := "XYZ", timestamp := 0 }]
        [{ tipo := "Salida", numero_vuelo := "AR300", hora := "11:00", aeropuerto := "AEP"
           matricula := "XYZ", timestamp := 0 }],
      r.llegada ≠ "AR300" ∧ r.salida ≠ "AR300" := by
  decide

/-- C1 (amended): in this scenario the reconciler emits exactly one standalone
arrival-only record, for AR1550; the non-exception departure AR300 is dropped
entirely because its registration XYZ was consumed by the exception pass, and
the leftover pass skips departures with consumed registrations. -/
theorem c1_amended :
    combine_arrivals_departures
        [{ tipo := "Llegada", numero_vuelo := "AR1550", hora := "10:00", aeropuerto := "AEP"
           matricula := "XYZ", timestamp := 0 }]
        [{ tipo := "Salida", numero_vuelo := "AR300", hora := "11:00", aeropuerto := "AEP"
           matricula := "XYZ", timestamp := 0 }] =
      [{ llegada := "AR1550", salida := "", hora_llegada := "10:00", hora_salida := ""
         origen := "AEP", destino := "", matricula := "XYZ" }] := by
  decide

/-- C3 (confirmed): every exception flight in the input yields its standalone
record in the output, and no paired record (both flight numbers nonempty)
carries an exception flight number on either side, regardless of registration
collisions. -/
theorem c3_exception_isolation (arrivals departures : List Flight) (f : Flight)
    (hf : f ∈ arrivals ++ departures) (hfe : f.numero_vuelo ∈ exception_vuelos) :
    exceptionRecord f ∈ combine_arrivals_departures arrivals departures ∧
    ∀ r ∈ combine_arrivals_departures arrivals departures,
      r.llegada ≠ "" → r.salida ≠ "" →
      r.llegada ∉ exception_vuelos ∧ r.salida ∉ exception_vuelos := by
  constructor
  · rw [combine_eq]
    exact List.mem_append_left _ (List.mem_append_left _
      (mem_exceptionPass_fst.mpr ⟨f, hf, hfe, rfl⟩))
  · intro r hr hlleg hsal
    rw [combine_eq] at hr
    rcases List.mem_append.mp hr with hr12 | hr3
    · rcases List.mem_append.mp hr12 with hr1 | hr2
      · obtain ⟨g, hg, hgexc, rfl⟩ := mem_exceptionPass_fst.mp hr1
        rcases exceptionRecord_standalone g with h | h
        · exact absurd h hlleg
        · exact absurd h hsal
      · obtain ⟨a, q, ha, hq, hnot, hanum, hmat, hcase⟩ := matchingPass_fst_shape _ _ r hr2
        rcases hcase with ⟨d, hfd, rfl⟩ | ⟨hfd, rfl⟩
        · have hdpred := List.find?_some hfd
          obtain ⟨_, _, hdexc⟩ := matchesArrival_iff.mp hdpred
          exact ⟨hanum, hdexc⟩
        · exact absurd rfl hsal
    · obtain ⟨d, hd, hdexc, rfl, hnot⟩ := leftoverPass_fst_shape _ _ r hr3
      exact absurd rfl hlleg

theorem c3_witness :
    exceptionRecord
        { tipo := "Llegada", numero_vuelo := "AR1550", hora := "10:00", aeropuerto := "AEP"
          matricula := "XYZ", timestamp := 0 } ∈
      combine_arrivals_departures
        [{ tipo := "Llegada", numero_vuelo := "AR1550", hora := "10:00", aeropuerto := "AEP"
           matricula := "XYZ", timestamp := 0 }]
        [{ tipo := "Salida", numero_vuelo := "AR301", hora := "11:00", aeropuerto := "AEP"
           matricula := "XYZ", timestamp := 0 }] :=
  (c3_exception_isolation _ _ _ (by decide) (by decide)).1

/-- C10 (confirmed): when any exception flight carries an empty registration
string, the exception pass marks the empty string as consumed, and then every
output record whose registration is empty is an exception record — no
non-exception flight with empty registration produces any output row (the
matching pass skips such arrivals, and the leftover pass skips such
departures). -/
theorem c10_empty_registration_poisoning (arrivals departures : List Flight)
    (h : ∃ f ∈ arrivals ++ departures, f.numero_vuelo ∈ exception_vuelos ∧ f.matricula = "") :
    "" ∈ (exceptionPass (arrivals ++ departures)).2 ∧
    ∀ r ∈ combine_arrivals_departures arrivals departures, r.matricula = "" →
      r.llegada ∈ exception_vuelos ∨ r.salida ∈ exception_vuelos := by
  obtain ⟨f, hf, hfe, hfm⟩ := h
  have hmem : "" ∈ (exceptionPass (arrivals ++ departures)).2 :=
    mem_exceptionPass_snd.mpr ⟨f, hf, hfe, hfm.symm⟩
  refine ⟨hmem, ?_⟩
  intro r hr hrm
  rw [combine_eq] at hr
  rcases List.mem_append.mp hr with hr12 | hr3
  · rcases List.mem_append.mp hr12 with hr1 | hr2
    · obtain ⟨g, hg, hgexc, rfl⟩ := mem_exceptionPass_fst.mp hr1
      rcases exceptionRecord_number g with h | h
      · exact Or.inl (h ▸ hgexc)
      · exact Or.inr (h ▸ hgexc)
    · have hno := matchingPass_fst_not_mem _ _ r hr2
      exact absurd (by rw [hrm]; exact hmem) hno
  · obtain ⟨d, hd, hdexc, rfl, hnot⟩ := leftoverPass_fst_shape _ _ _ hr3
    have hmem2 : "" ∈ (matchingPass departures arrivals
        (exceptionPass (arrivals ++ departures)).2).2 :=
      matchingPass_mono _ _ hmem
    exact absurd (by rw [hrm]; exact hmem2) hnot

theorem c10_witness :
    "" ∈ (exceptionPass
      ([{ tipo := "Llegada", numero_vuelo := "AR700", hora := "12:00", aeropuerto := "AEP"
          matricula := "", timestamp := 0 }] ++
        [{ tipo := "Salida", numero_vuelo := "AR1551", hora := "09:00", aeropuerto := "AEP"
           matricula := "", timestamp := 0 }])).2 :=
  (c10_empty_registration_poisoning _ _ (by decide)).1

/-- C9 (confirmed): the matching pass selects, for an eligible arrival, the
FIRST departure in the given list order whose registration equals the
arrival's, is not yet consumed, and whose flight number is not exceptional —
first-found in list order, not earliest-time.  In the concrete scenario, the
second-listed departure (10:30) is closer in time to the arrival (10:00) than
the first-listed one (23:00), yet the first-listed one is paired. -/
theorem c9_first_match :
    (∀ (arrival : Flight) (processed : List String) (departures : List Flight) (d : Flight),
      findMatching arrival processed departures = some d ↔
        matchesArrival arrival processed d = true ∧
        ∃ l1 l2, departures = l1 ++ d :: l2 ∧
          ∀ x ∈ l1, matchesArrival arrival processed x = false) ∧
    (∀ (arrival departure : Flight) (processed : List String),
      matchesArrival arrival processed departure = true ↔
        departure.matricula = arrival.matricula ∧ departure.matricula ∉ processed ∧
        departure.numero_vuelo ∉ exception_vuelos) ∧
    combine_arrivals_departures
        [{ tipo := "Llegada", numero_vuelo := "AR100", hora := "10:00", aeropuerto := "AEP"
           matricula := "LV", timestamp := 0 }]
        [{ tipo := "Salida", numero_vuelo := "AR9", hora := "23:00", aeropuerto := "MDZ"
           matricula := "LV", timestamp := 0 },
         { tipo := "Salida", numero_vuelo := "AR8", hora := "10:30", aeropuerto := "SLA"
           matricula := "LV", timestamp := 0 }] =
      [pairedRecord
        { tipo := "Llegada", numero_vuelo := "AR100", hora := "10:00", aeropuerto := "AEP"
          matricula := "LV", timestamp := 0 }
        { tipo := "Salida", numero_vuelo := "AR9", hora := "23:00", aeropuerto := "MDZ"
          matricula := "LV", timestamp := 0 }] := by
  refine ⟨?_, fun a d p => matchesArrival_iff, by decide⟩
  intro arrival processed departures d
  rw [findMatching, List.find?_eq_some]
  constructor
  · rintro ⟨hpd, l1, l2, rfl, hl1⟩
    exact ⟨hpd, l1, l2, rfl, fun x hx => by simpa using hl1 x hx⟩
  · rintro ⟨hpd, l1, l2, rfl, hl1⟩
    exact ⟨hpd, l1, l2, rfl, fun x hx => by simp [hl1 x hx]⟩

/-- C4 (confirmed): for a registration R carried by no exception flight but
present in both input lists, exactly one output record references R, and every
output record referencing R is the paired form, built from an arrival and a
departure of the inputs that both carry R. -/
theorem c4_registration_exclusivity (arrivals departures : List Flight) (R : String)
    (hexc : ∀ f ∈ arrivals ++ departures, f.numero_vuelo ∈ exception_vuelos → f.matricula ≠ R)
    (harr : ∃ a ∈ arrivals, a.matricula = R)
    (hdep : ∃ d ∈ departures, d.matricula = R) :
    (combine_arrivals_departures arrivals departures).countP (fun r => r.matricula == R) = 1 ∧
    ∀ r ∈ combine_arrivals_departures arrivals departures, r.matricula = R →
      ∃ a d, a ∈ arrivals ∧ d ∈ departures ∧ a.matricula = R ∧ d.matricula = R ∧
        r = pairedRecord a d := by
  have hP1 : R ∉ (exceptionPass (arrivals ++ departures)).2 := by
    intro hc
    obtain ⟨f, hf, hfe, hfm⟩ := mem_exceptionPass_snd.mp hc
    exact (hexc f hf hfe) hfm.symm
  have harr' : ∀ f ∈ arrivals, f.matricula = R → f.numero_vuelo ∉ exception_vuelos :=
    fun f hf hfm hfe => (hexc f (List.mem_append_left _ hf) hfe) hfm
  have hdep' : ∃ d ∈ departures, d.matricula = R ∧ d.numero_vuelo ∉ exception_vuelos := by
    obtain ⟨d, hd, hdm⟩ := hdep
    exact ⟨d, hd, hdm, fun hfe => (hexc d (List.mem_append_right _ hd) hfe) hdm⟩
  obtain ⟨a0, d0, ha0, hd0, ha0R, hd0R, hpair⟩ :=
    matchingPass_pairs arrivals (exceptionPass (arrivals ++ departures)).2 hP1 harr harr' hdep'
  have hEPfail : ∀ r ∈ (exceptionPass (arrivals ++ departures)).1,
      (r.matricula == R) = false := by
    intro r hr
    obtain ⟨g, hg, hgexc, rfl⟩ := mem_exceptionPass_fst.mp hr
    rw [exceptionRecord_matricula]
    exact beq_eq_false_iff_ne.mpr (hexc g hg hgexc)
  have hMP : ∀ r ∈ (matchingPass departures arrivals
      (exceptionPass (arrivals ++ departures)).2).1, r.matricula = R →
      ∃ a d, a ∈ arrivals ∧ d ∈ departures ∧ a.matricula = R ∧ d.matricula = R ∧
        r = pairedRecord a d := by
    intro r hr hrm
    obtain ⟨a, q, ha, hq, hnot, hanum, hmat, hcase⟩ := matchingPass_fst_shape _ _ r hr
    have haR : a.matricula = R := by rw [← hmat, hrm]
    rcases hcase with ⟨d, hfd, rfl⟩ | ⟨hfd, rfl⟩
    · have hdpred := List.find?_some hfd
      obtain ⟨hdm, _, _⟩ := matchesArrival_iff.mp hdpred
      exact ⟨a, d, ha, List.mem_of_find?_eq_some hfd, haR, by rw [hdm, haR], rfl⟩
    · exfalso
      obtain ⟨dw, hdw, hdwR, hdwexc⟩ := hdep'
      have : matchesArrival a q dw = true :=
        matchesArrival_iff.mpr ⟨by rw [hdwR, haR], by rw [hdwR, ← haR]; exact hnot, hdwexc⟩
      exact absurd this (by simpa using List.find?_eq_none.mp hfd dw hdw)
  have hLPfail : ∀ r ∈ (leftoverPass departures
      (matchingPass departures arrivals (exceptionPass (arrivals ++ departures)).2).2).1,
      (r.matricula == R) = false := by
    intro r hr
    obtain ⟨d, hd, hdexc, rfl, hnot⟩ := leftoverPass_fst_shape _ _ _ hr
    refine beq_eq_false_iff_ne.mpr (fun hc => hnot ?_)
    rw [hc]
    have := matchingPass_fst_mem_processed _ _ _ hpair
    rw [show (pairedRecord a0 d0).matricula = R from ha0R] at this
    exact this
  have hforall : ∀ r ∈ combine_arrivals_departures arrivals departures, r.matricula = R →
      ∃ a d, a ∈ arrivals ∧ d ∈ departures ∧ a.matricula = R ∧ d.matricula = R ∧
        r = pairedRecord a d := by
    intro r hr hrm
    rw [combine_eq] at hr
    rcases List.mem_append.mp hr with hr12 | hr3
    · rcases List.mem_append.mp hr12 with hr1 | hr2
      · exact absurd (beq_iff_eq.mpr hrm) (by simp [hEPfail r hr1])
      · exact hMP r hr2 hrm
    · exact absurd (beq_iff_eq.mpr hrm) (by simp [hLPfail r hr3])
  refine ⟨?_, hforall⟩
  have hpos : 0 < (combine_arrivals_departures arrivals departures).countP
      (fun r => r.matricula == R) := by
    refine List.countP_pos_iff.mpr ⟨pairedRecord a0 d0, ?_, beq_iff_eq.mpr ha0R⟩
    rw [combine_eq]
    exact List.mem_append_left _ (List.mem_append_right _ hpair)
  have hpw : (combine_arrivals_departures arrivals departures).Pairwise
      (fun r s => ¬((r.matricula == R) = true ∧ (s.matricula == R) = true)) := by
    rw [combine_eq]
    refine List.pairwise_append.mpr ⟨List.pairwise_append.mpr ⟨?_, ?_, ?_⟩, ?_, ?_⟩
    · exact List.pairwise_of_forall_mem_list
        (fun r hr s hs h => by rw [hEPfail r hr] at h; exact absurd h.1 (by simp))
    · exact (matchingPass_pairwise _ _).imp
        (fun hne h => hne (by rw [beq_iff_eq.mp h.1, beq_iff_eq.mp h.2]))
    · intro r hr s hs h
      rw [hEPfail r hr] at h
      exact absurd h.1 (by simp)
    · exact (leftoverPass_pairwise _ _).imp
        (fun hne h => hne (by rw [beq_iff_eq.mp h.1, beq_iff_eq.mp h.2]))
    · intro r hr s hs h
      rw [hLPfail s hs] at h
      exact absurd h.2 (by simp)
  have hle := countP_le_one_of_pairwise hpw
  omega

theorem c4_witness :
    (combine_arrivals_departures
        [{ tipo := "Llegada", numero_vuelo := "AR100", hora := "08:00", aeropuerto := "AEP"
           matricula := "REG", timestamp := 0 }]
        [{ tipo := "Salida", numero_vuelo := "AR200", hora := "09:30", aeropuerto := "MDZ"
           matricula := "REG", timestamp := 0 }]).countP
      (fun r => r.matricula == "REG") = 1 :=
  (c4_registration_exclusivity _ _ "REG" (by decide) (by decide) (by decide)).1

/-! ### Provenance-tagged reconciler: each input occurrence carries a tag so
that coverage (which inputs reach which output rows) can be stated.  The
algorithm reads only the `Flight` component, exactly as the untagged passes
do; projecting tags away recovers `combine_arrivals_departures`. -/

/-- A flight tagged with the index of its input occurrence. -/
abbrev TFlight := Nat × Flight

/-- The tags of all output rows, in order. -/
def tagsOf : List (CombinedRecord × List Nat) → List Nat
  | [] => []
  | x :: rest => x.2 ++ tagsOf rest

/-- Tag-carrying version of `exceptionPass`. -/
def texceptionPass : List TFlight → List (CombinedRecord × List Nat) × List String
  | [] => ([], [])
  | f :: rest =>
    if f.2.numero_vuelo ∈ exception_vuelos then
      ((exceptionRecord f.2, [f.1]) :: (texceptionPass rest).1,
        f.2.matricula :: (texceptionPass rest).2)
    else texceptionPass rest

/-- Tag-carrying version of `findMatching`. -/
def tfindMatching (arrival : Flight) (processed : List String)
    (departures : List TFlight) : Option TFlight :=
  departures.find? (fun d => matchesArrival arrival processed d.2)

/-- Tag-carrying version of `matchingPass`. -/
def tmatchingPass (departures : List TFlight) :
    List TFlight → List String → List (CombinedRecord × List Nat) × List String
  | [], processed => ([], processed)
  | a :: rest, processed =>
    if a.2.matricula ∈ processed ∨ a.2.numero_vuelo ∈ exception_vuelos then
      tmatchingPass departures rest processed
    else
      match tfindMatching a.2 processed departures with
      | some d =>
        ((pairedRecord a.2 d.2, [a.1, d.1]) ::
            (tmatchingPass departures rest (a.2.matricula :: d.2.matricula :: processed)).1,
          (tmatchingPass departures rest (a.2.matricula :: d.2.matricula :: processed)).2)
      | none =>
        ((arrivalOnlyRecord a.2, [a.1]) ::
            (tmatchingPass departures rest (a.2.matricula :: processed)).1,
          (tmatchingPass departures rest (a.2.matricula :: processed)).2)

/-- Tag-carrying version of `leftoverPass`. -/
def tleftoverPass : List TFlight → List String → List (CombinedRecord × List Nat) × List String
  | [], processed => ([], processed)
  | d :: rest, processed =>
    if d.2.matricula ∉ processed ∧ d.2.numero_vuelo ∉ exception_vuelos then
      ((departureOnlyRecord d.2, [d.1]) :: (tleftoverPass rest (d.2.matricula :: processed)).1,
        (tleftoverPass rest (d.2.matricula :: processed)).2)
    else tleftoverPass rest processed

/-- Tag-carrying version of `combine_arrivals_departures`. -/
def combineT (arrivals departures : List TFlight) : List (CombinedRecord × List Nat) :=
  (texceptionPass (arrivals ++ departures)).1 ++
  (tmatchingPass departures arrivals (texceptionPass (arrivals ++ departures)).2).1 ++
  (tleftoverPass departures (tmatchingPass departures arrivals
    (texceptionPass (arrivals ++ departures)).2).2).1

lemma texceptionPass_proj (fs : List TFlight) :
    (texceptionPass fs).1.map Prod.fst = (exceptionPass (fs.map Prod.snd)).1 ∧
    (texceptionPass fs).2 = (exceptionPass (fs.map Prod.snd)).2 := by
  induction fs with
  | nil => exact ⟨rfl, rfl⟩
  | cons f rest ih =>
    by_cases hf : f.2.numero_vuelo ∈ exception_vuelos <;>
      simp [texceptionPass, exceptionPass, hf, ih.1, ih.2]

lemma tfindMatching_proj (arrival : Flight) (processed : List String) (ds : List TFlight) :
    findMatching arrival processed (ds.map Prod.snd) =
      (tfindMatching arrival processed ds).map Prod.snd := by
  rw [findMatching, tfindMatching, List.find?_map]
  rfl

lemma tmatchingPass_proj (ds : List TFlight) :
    ∀ (as : List TFlight) (p : List String),
      (tmatchingPass ds as p).1.map Prod.fst =
        (matchingPass (ds.map Prod.snd) (as.map Prod.snd) p).1 ∧
      (tmatchingPass ds as p).2 =
        (matchingPass (ds.map Prod.snd) (as.map Prod.snd) p).2 := by
  intro as
  induction as with
  | nil => exact fun p => ⟨rfl, rfl⟩
  | cons a rest ih =>
    intro p
    by_cases hg : a.2.matricula ∈ p ∨ a.2.numero_vuelo ∈ exception_vuelos
    · simp only [tmatchingPass, List.map_cons, matchingPass, if_pos hg]
      exact ih p
    · have hproj := tfindMatching_proj a.2 p ds
      cases hfd : tfindMatching a.2 p ds with
      | some d =>
        rw [hfd] at hproj
        simp only [tmatchingPass, List.map_cons, matchingPass, if_neg hg, hfd, hproj,
          Option.map_some']
        exact ⟨by rw [(ih _).1], (ih _).2⟩
      | none =>
        rw [hfd] at hproj
        simp only [tmatchingPass, List.map_cons, matchingPass, if_neg hg, hfd, hproj,
          Option.map_none']
        exact ⟨by rw [(ih _).1], (ih _).2⟩

lemma tleftoverPass_proj :
    ∀ (ds : List TFlight) (p : List String),
      (tleftoverPass ds p).1.map Prod.fst = (leftoverPass (ds.map Prod.snd) p).1 ∧
      (tleftoverPass ds p).2 = (leftoverPass (ds.map Prod.snd) p).2 := by
  intro ds
  induction ds with
  | nil => exact fun p => ⟨rfl, rfl⟩
  | cons d rest ih =>
    intro p
    by_cases hg : d.2.matricula ∉ p ∧ d.2.numero_vuelo ∉ exception_vuelos
    · simp only [tleftoverPass, List.map_cons, leftoverPass, if_pos hg]
      exact ⟨by rw [(ih _).1], (ih _).2⟩
    · simp only [tleftoverPass, List.map_cons, leftoverPass, if_neg hg]
      exact ih p

lemma combineT_proj (arrivals departures : List TFlight) :
    (combineT arrivals departures).map Prod.fst =
      combine_arrivals_departures (arrivals.map Prod.snd) (departures.map Prod.snd) := by
  have hmap : (arrivals ++ departures).map Prod.snd =
      arrivals.map Prod.snd ++ departures.map Prod.snd := List.map_append _ _ _
  have hep := texceptionPass_proj (arrivals ++ departures)
  rw [hmap] at hep
  have hmp := tmatchingPass_proj departures arrivals (texceptionPass (arrivals ++ departures)).2
  have hlp := tleftoverPass_proj departures
    (tmatchingPass departures arrivals (texceptionPass (arrivals ++ departures)).2).2
  rw [combineT, combine_eq, List.map_append, List.map_append, hep.1, hmp.1, hlp.1, hmp.2, hep.2]

lemma tagsOf_append (l1 l2 : List (CombinedRecord × List Nat)) :
    tagsOf (l1 ++ l2) = tagsOf l1 ++ tagsOf l2 := by
  induction l1 with
  | nil => rfl
  | cons x rest ih => simp [tagsOf, ih]

lemma tmatchingPass_tmono {ds : List TFlight} {x : String} :
    ∀ (as : List TFlight) (p : List String), x ∈ p → x ∈ (tmatchingPass ds as p).2 := by
  intro as
  induction as with
  | nil =>
    intro p hp
    simpa [tmatchingPass] using hp
  | cons a rest ih =>
    intro p hp
    simp only [tmatchingPass]
    split
    · exact ih p hp
    · split
      · exact ih _ (by simp [hp])
      · exact ih _ (by simp [hp])

lemma texceptionPass_tags :
    ∀ (fs : List TFlight),
      fs.Pairwise (fun x y => x.1 ≠ y.1) →
      (tagsOf (texceptionPass fs).1).Nodup ∧
      ∀ t ∈ tagsOf (texceptionPass fs).1,
        ∃ f ∈ fs, f.1 = t ∧ f.2.numero_vuelo ∈ exception_vuelos := by
  intro fs
  induction fs with
  | nil =>
    intro _
    simp [texceptionPass, tagsOf]
  | cons f rest ih =>
    intro hpw
    obtain ⟨hhead, htail⟩ := List.pairwise_cons.mp hpw
    obtain ⟨ihN, ihT⟩ := ih htail
    by_cases hf : f.2.numero_vuelo ∈ exception_vuelos
    · simp only [texceptionPass, if_pos hf, tagsOf, List.singleton_append]
      constructor
      · refine List.nodup_cons.mpr ⟨fun hc => ?_, ihN⟩
        obtain ⟨g, hg, hgt, _⟩ := ihT _ hc
        exact (hhead g hg) hgt.symm
      · intro t ht
        rcases List.mem_cons.mp ht with h | h
        · exact ⟨f, List.mem_cons_self _ _, h.symm, hf⟩
        · obtain ⟨g, hg, hgt, hge⟩ := ihT t h
          exact ⟨g, List.mem_cons_of_mem _ hg, hgt, hge⟩
    · simp only [texceptionPass, if_neg hf]
      refine ⟨ihN, fun t ht => ?_⟩
      obtain ⟨g, hg, hgt, hge⟩ := ihT t ht
      exact ⟨g, List.mem_cons_of_mem _ hg, hgt, hge⟩

lemma tleftoverPass_tags :
    ∀ (ds : List TFlight) (p : List String),
      ds.Pairwise (fun x y => x.1 ≠ y.1) →
      (tagsOf (tleftoverPass ds p).1).Nodup ∧
      ∀ t ∈ tagsOf (tleftoverPass ds p).1,
        ∃ y ∈ ds, y.1 = t ∧ y.2.matricula ∉ p ∧ y.2.numero_vuelo ∉ exception_vuelos := by
  intro ds
  induction ds with
  | nil =>
    intro p _
    simp [tleftoverPass, tagsOf]
  | cons d rest ih =>
    intro p hpw
    obtain ⟨hhead, htail⟩ := List.pairwise_cons.mp hpw
    by_cases hg : d.2.matricula ∉ p ∧ d.2.numero_vuelo ∉ exception_vuelos
    · obtain ⟨ihN, ihT⟩ := ih _ htail
      simp only [tleftoverPass, if_pos hg, tagsOf, List.singleton_append]
      constructor
      · refine List.nodup_cons.mpr ⟨fun hc => ?_, ihN⟩
        obtain ⟨y, hy, hyt, _, _⟩ := ihT _ hc
        exact (hhead y hy) hyt.symm
      · intro t ht
        rcases List.mem_cons.mp ht with h | h
        · exact ⟨d, List.mem_cons_self _ _, h.symm, hg.1, hg.2⟩
        · obtain ⟨y, hy, hyt, hynp, hyexc⟩ := ihT t h
          exact ⟨y, List.mem_cons_of_mem _ hy, hyt,
            fun hc => hynp (List.mem_cons_of_mem _ hc), hyexc⟩
    · obtain ⟨ihN, ihT⟩ := ih p htail
      simp only [tleftoverPass, if_neg hg]
      refine ⟨ihN, fun t ht => ?_⟩
      obtain ⟨y, hy, hyt, hynp, hyexc⟩ := ihT t ht
      exact ⟨y, List.mem_cons_of_mem _ hy, hyt, hynp, hyexc⟩

lemma tmatchingPass_tags {ds : List TFlight} :
    ∀ (as : List TFlight) (p : List String),
      as.Pairwise (fun x y => x.1 ≠ y.1) →
      ds.Pairwise (fun x y => x.1 ≠ y.1) →
      (∀ x ∈ as, ∀ y ∈ ds, x.1 ≠ y.1) →
      (tagsOf (tmatchingPass ds as p).1).Nodup ∧
      ∀ t ∈ tagsOf (tmatchingPass ds as p).1,
        ((∃ x ∈ as, x.1 = t ∧ x.2.matricula ∉ p ∧
            x.2.matricula ∈ (tmatchingPass ds as p).2 ∧
            x.2.numero_vuelo ∉ exception_vuelos) ∨
          (∃ y ∈ ds, y.1 = t ∧ y.2.matricula ∉ p ∧
            y.2.matricula ∈ (tmatchingPass ds as p).2 ∧
            y.2.numero_vuelo ∉ exception_vuelos)) := by
  intro as
  induction as with
  | nil =>
    intro p _ _ _
    simp [tmatchingPass, tagsOf]
  | cons a rest ih =>
    intro p hpa hpd hcross
    obtain ⟨hahead, hatail⟩ := List.pairwise_cons.mp hpa
    have hcross' : ∀ x ∈ rest, ∀ y ∈ ds, x.1 ≠ y.1 :=
      fun x hx => hcross x (List.mem_cons_of_mem _ hx)
    have hsymm : Symmetric (fun x y : TFlight => x.1 ≠ y.1) := fun x y h => h.symm
    by_cases hg : a.2.matricula ∈ p ∨ a.2.numero_vuelo ∈ exception_vuelos
    · simp only [tmatchingPass, if_pos hg]
      obtain ⟨ihN, ihT⟩ := ih p hatail hpd hcross'
      refine ⟨ihN, fun t ht => ?_⟩
      rcases ihT t ht with ⟨x, hx, h1, h2, h3, h4⟩ | hy
      · exact Or.inl ⟨x, List.mem_cons_of_mem _ hx, h1, h2, h3, h4⟩
      · exact Or.inr hy
    · have hga : a.2.matricula ∉ p := fun hc => hg (Or.inl hc)
      have hgb : a.2.numero_vuelo ∉ exception_vuelos := fun hc => hg (Or.inr hc)
      cases hfd : tfindMatching a.2 p ds with
      | some d =>
        have hdpred := List.find?_some hfd
        have hdmem := List.mem_of_find?_eq_some hfd
        obtain ⟨hdm, hdnp, hdexc⟩ := matchesArrival_iff.mp hdpred
        obtain ⟨ihN, ihT⟩ := ih (a.2.matricula :: d.2.matricula :: p) hatail hpd hcross'
        simp only [tmatchingPass, if_neg hg, hfd, tagsOf]
        have hf2 : a.1 ∉ tagsOf
            (tmatchingPass ds rest (a.2.matricula :: d.2.matricula :: p)).1 := by
          intro hc
          rcases ihT _ hc with ⟨x, hx, hxt, _, _, _⟩ | ⟨y, hy, hyt, _, _, _⟩
          · exact (hahead x hx) hxt.symm
          · exact (hcross a (List.mem_cons_self _ _) y hy) hyt.symm
        have hf3 : d.1 ∉ tagsOf
            (tmatchingPass ds rest (a.2.matricula :: d.2.matricula :: p)).1 := by
          intro hc
          rcases ihT _ hc with ⟨x, hx, hxt, _, _, _⟩ | ⟨y, hy, hyt, hynp, _, _⟩
          · exact (hcross x (List.mem_cons_of_mem _ hx) d hdmem) hxt
          · have hyd : y ≠ d := by
              intro hc2
              exact hynp (by rw [hc2]; exact List.mem_cons_of_mem _ (List.mem_cons_self _ _))
            exact (List.Pairwise.forall hsymm hpd hy hdmem hyd) hyt
        constructor
        · refine List.nodup_cons.mpr ⟨?_, List.nodup_cons.mpr ⟨hf3, ihN⟩⟩
          intro hc
          rcases List.mem_cons.mp hc with h | h
          · exact (hcross a (List.mem_cons_self _ _) d hdmem) h
          · exact hf2 h
        · intro t ht
          rcases List.mem_cons.mp ht with h | h2
          · subst h
            exact Or.inl ⟨a, List.mem_cons_self _ _, rfl, hga,
              tmatchingPass_tmono _ _ (List.mem_cons_self _ _), hgb⟩
          rcases List.mem_cons.mp h2 with h | h
          · subst h
            exact Or.inr ⟨d, hdmem, rfl, hdnp,
              tmatchingPass_tmono _ _ (List.mem_cons_of_mem _ (List.mem_cons_self _ _)), hdexc⟩
          · rcases ihT t h with ⟨x, hx, hxt, hxnp, hxf, hxe⟩ | ⟨y, hy, hyt, hynp, hyf, hye⟩
            · exact Or.inl ⟨x, List.mem_cons_of_mem _ hx, hxt,
                fun hc => hxnp (List.mem_cons_of_mem _ (List.mem_cons_of_mem _ hc)), hxf, hxe⟩
            · exact Or.inr ⟨y, hy, hyt,
                fun hc => hynp (List.mem_cons_of_mem _ (List.mem_cons_of_mem _ hc)), hyf, hye⟩
      | none =>
        obtain ⟨ihN, ihT⟩ := ih (a.2.matricula :: p) hatail hpd hcross'
        simp only [tmatchingPass, if_neg hg, hfd, tagsOf, List.singleton_append]
        have hf2 : a.1 ∉ tagsOf (tmatchingPass ds rest (a.2.matricula :: p)).1 := by
          intro hc
          rcases ihT _ hc with ⟨x, hx, hxt, _, _, _⟩ | ⟨y, hy, hyt, _, _, _⟩
          · exact (hahead x hx) hxt.symm
          · exact (hcross a (List.mem_cons_self _ _) y hy) hyt.symm
        constructor
        · exact List.nodup_cons.mpr ⟨hf2, ihN⟩
        · intro t ht
          rcases List.mem_cons.mp ht with h | h
          · subst h
            exact Or.inl ⟨a, List.mem_cons_self _ _, rfl, hga,
              tmatchingPass_tmono _ _ (List.mem_cons_self _ _), hgb⟩
          · rcases ihT t h with ⟨x, hx, hxt, hxnp, hxf, hxe⟩ | ⟨y, hy, hyt, hynp, hyf, hye⟩
            · exact Or.inl ⟨x, List.mem_cons_of_mem _ hx, hxt,
                fun hc => hxnp (List.mem_cons_of_mem _ hc), hxf, hxe⟩
            · exact Or.inr ⟨y, hy, hyt,
                fun hc => hynp (List.mem_cons_of_mem _ hc), hyf, hye⟩

/-- C2 (counterexample): with no arrivals and two non-exception departures
sharing registration Q, the second departure appears in NO output record: the
first leftover departure consumes registration Q and the second is skipped, so
not every input flight appears in exactly one output record. -/
theorem c2_counterexample :
    combine_arrivals_departures []
        [{ tipo := "Salida", numero_vuelo := "AR800", hora := "14:00", aeropuerto := "MDZ"
           matricula := "Q", timestamp := 0 },
         { tipo := "Salida", numero_vuelo := "AR801", hora := "15:00", aeropuerto := "SLA"
           matricula := "Q", timestamp := 0 }] =
      [{ llegada := "", salida := "AR800", hora_llegada := "", hora_salida := "14:00"
         origen := "", destino := "MDZ", matricula := "Q" }] ∧
    ∀ r ∈ combine_arrivals_departures []
        [{ tipo := "Salida", numero_vuelo := "AR800", hora := "14:00", aeropuerto := "MDZ"
           matricula := "Q", timestamp := 0 },
         { tipo := "Salida", numero_vuelo := "AR801", hora := "15:00", aeropuerto := "SLA"
           matricula := "Q", timestamp := 0 }],
      r.llegada ≠ "AR801" ∧ r.salida ≠ "AR801" := by
  decide

/-- C2 (amended): no input flight ever appears in more than one output record
— when each input occurrence is tagged, the tags collected over all output
rows are pairwise distinct, and projecting the tags away recovers the
reconciler exactly — but an input flight may appear in NO record: a
non-exception flight whose registration was already consumed (by an exception
flight or an earlier row) is dropped. -/
theorem c2_amended (arrivals departures : List TFlight)
    (h : ((arrivals ++ departures).map Prod.fst).Nodup) :
    (combineT arrivals departures).map Prod.fst =
      combine_arrivals_departures (arrivals.map Prod.snd) (departures.map Prod.snd) ∧
    (tagsOf (combineT arrivals departures)).Nodup := by
  refine ⟨combineT_proj arrivals departures, ?_⟩
  have hpw : (arrivals ++ departures).Pairwise (fun x y => x.1 ≠ y.1) :=
    List.pairwise_map.mp h
  obtain ⟨hpa, hpd, hcross⟩ := List.pairwise_append.mp hpw
  have hsymm : Symmetric (fun x y : TFlight => x.1 ≠ y.1) := fun x y hne => hne.symm
  have hinj : ∀ u ∈ arrivals ++ departures, ∀ v ∈ arrivals ++ departures,
      u.1 = v.1 → u = v := by
    intro u hu v hv he
    by_contra hne
    exact (List.Pairwise.forall hsymm hpw hu hv hne) he
  obtain ⟨hEN, hET⟩ := texceptionPass_tags (arrivals ++ departures) hpw
  obtain ⟨hMN, hMT⟩ := tmatchingPass_tags arrivals
    (texceptionPass (arrivals ++ departures)).2 hpa hpd hcross
  obtain ⟨hLN, hLT⟩ := tleftoverPass_tags departures
    (tmatchingPass departures arrivals (texceptionPass (arrivals ++ departures)).2).2 hpd
  rw [combineT, tagsOf_append, tagsOf_append]
  refine List.nodup_append.mpr ⟨List.nodup_append.mpr ⟨hEN, hMN, ?_⟩, hLN, ?_⟩
  · intro t ht1 ht2
    obtain ⟨f, hf, hft, hfe⟩ := hET t ht1
    rcases hMT t ht2 with ⟨x, hx, hxt, _, _, hxe⟩ | ⟨y, hy, hyt, _, _, hye⟩
    · have hfx : f = x := hinj f hf x (List.mem_append_left _ hx) (by rw [hft, hxt])
      exact hxe (hfx ▸ hfe)
    · have hfy : f = y := hinj f hf y (List.mem_append_right _ hy) (by rw [hft, hyt])
      exact hye (hfy ▸ hfe)
  · intro t ht12 ht3
    obtain ⟨y3, hy3, hy3t, hy3np, hy3e⟩ := hLT t ht3
    rcases List.mem_append.mp ht12 with ht1 | ht2
    · obtain ⟨f, hf, hft, hfe⟩ := hET t ht1
      have hfy : f = y3 := hinj f hf y3 (List.mem_append_right _ hy3) (by rw [hft, hy3t])
      exact hy3e (hfy ▸ hfe)
    · rcases hMT t ht2 with ⟨x, hx, hxt, _, hxf, _⟩ | ⟨y, hy, hyt, _, hyf, _⟩
      · exact (hcross x hx y3 hy3) (by rw [hxt, hy3t])
      · have hyy : y = y3 := by
          by_contra hne
          exact (List.Pairwise.forall hsymm hpd hy hy3 hne) (by rw [hyt, hy3t])
        exact hy3np (hyy ▸ hyf)

theorem c2_amended_witness :
    ((((([((0 : Nat),
          { tipo := "Llegada", numero_vuelo := "AR100", hora := "08:00", aeropuerto := "AEP"
            matricula := "ABC", timestamp := 0 })] : List TFlight) ++
        ([((1 : Nat),
          { tipo := "Salida", numero_vuelo := "AR200", hora := "09:30", aeropuerto := "MDZ"
            matricula := "ABC", timestamp := 0 })] : List TFlight)).map Prod.fst).Nodup)) ∧
    (tagsOf (combineT
      ([((0 : Nat),
        { tipo := "Llegada", numero_vuelo := "AR100", hora := "08:00", aeropuerto := "AEP"
          matricula := "ABC", timestamp := 0 })] : List TFlight)
      ([((1 : Nat),
        { tipo := "Salida", numero_vuelo := "AR200", hora := "09:30", aeropuerto := "MDZ"
          matricula := "ABC", timestamp := 0 })] : List TFlight))).Nodup :=
  ⟨by decide, (c2_amended _ _ (by decide)).2⟩
